import Mathlib

/-!
Verification development for the stock-tool repository core.

Python floating-point values are modelled as rationals (ℚ); a nullable
float (`Optional[float]`) is `Option ℚ`.  The three components covered are

* the Valuation Scorer: the field-validator bodies `compute_discount`,
  `compute_peg`, `compute_score` of `TickerSummary`
  (stock_tool/models/models.py, lines 66-105);
* the Portfolio Store: `SQLitePortfolioRepository`
  (stock_tool/repositories/sqlite_portfolio_repository.py);
* the Statement Merger and Record Normalizer:
  `_join_financial_statements` and `_df_to_json_safe`
  (stock_tool/services/stock_extraction_service.py, lines 216-232).
-/

namespace StockTool

/-- Round a rational to the nearest integer, ties to even, following the
behaviour of Python's builtin `round` on exact values. -/
def roundHalfEven (x : ℚ) : ℤ :=
  if Int.fract x < 1 / 2 then ⌊x⌋
  else if 1 / 2 < Int.fract x then ⌊x⌋ + 1
  else if ⌊x⌋ % 2 = 0 then ⌊x⌋ else ⌊x⌋ + 1

/-- Model of Python's `round(x, 2)`: round to two decimal places. -/
def round2 (x : ℚ) : ℚ := (roundHalfEven (x * 100) : ℚ) / 100

/-- Embedding of the validator body `compute_discount`
(models.py, lines 66-72).  The Python guard is
`if price and target and target != 0`: `and` uses truthiness, so the guard
also fails when either float equals 0.0, which makes the trailing
`target != 0` test redundant.  With both values non-null the guard is
exactly `p ≠ 0 ∧ t ≠ 0`. -/
def compute_discount (price target : Option ℚ) : Option ℚ :=
  match price, target with
  | some p, some t => if p ≠ 0 ∧ t ≠ 0 then some ((t - p) / t) else none
  | _, _ => none

/-- Embedding of the validator body `compute_peg` (models.py, lines 74-80).
The guard `if fpe and growth and growth != 0` is truthiness again: with both
values non-null it is exactly `f ≠ 0 ∧ g ≠ 0`. -/
def compute_peg (fpe growth : Option ℚ) : Option ℚ :=
  match fpe, growth with
  | some f, some g => if f ≠ 0 ∧ g ≠ 0 then some (f / g) else none
  | _, _ => none

/-- Embedding of the validator body `compute_score`
(models.py, lines 82-105): sequential accumulation of the four guarded
weighted clamped terms, then `round(score, 2)`. -/
def compute_score (discount peg pe dy : Option ℚ) : ℚ :=
  let s0 : ℚ := 0
  let s1 := match discount with
    | some d => s0 + min (max (d * 100) 0) 100 * 0.4
    | none => s0
  let s2 := match peg with
    | some p => if p > 0 then s1 + min (max (1 / p * 100) 0) 100 * 0.3 else s1
    | none => s1
  let s3 := match pe with
    | some v => if v > 0 then s2 + min (max (15 / v * 100) 0) 100 * 0.2 else s2
    | none => s2
  let s4 := match dy with
    | some y => s3 + min (max (y * 100) 0) 100 * 0.1
    | none => s3
  round2 s4

example : compute_discount (some 90) (some 100) = some (1 / 10) := by
  norm_num [compute_discount]

example : compute_discount (some 90) (some 0) = none := by
  norm_num [compute_discount]

example : compute_peg (some 20) (some 0) = none := by
  norm_num [compute_peg]

example : compute_score (some (1 / 2)) none none none = 20 := by
  norm_num [compute_score, round2, roundHalfEven, Int.fract, max_def, min_def]

example : compute_score none none none none = 0 := by
  norm_num [compute_score, round2, roundHalfEven, Int.fract, max_def, min_def]

/-- Record type of the pydantic model `TickerSummary`
(models.py, lines 12-63): every field after `symbol` is optional with
default `None`.  Integer-typed fields are `Option ℤ`, float fields
`Option ℚ`, the recommendation breakdown an association list. -/
structure TickerSummary where
  symbol : String
  name : Option String := none
  currentPrice : Option ℚ := none
  trailingPE : Option ℚ := none
  forwardPE : Option ℚ := none
  priceToBook : Option ℚ := none
  enterpriseToEbitda : Option ℚ := none
  epsTrailingTwelveMonths : Option ℚ := none
  epsForward : Option ℚ := none
  revenueGrowth : Option ℚ := none
  earningsGrowth : Option ℚ := none
  returnOnEquity : Option ℚ := none
  profitMargins : Option ℚ := none
  freeCashflow : Option ℤ := none
  totalDebt : Option ℤ := none
  totalCash : Option ℤ := none
  debtToEquity : Option ℚ := none
  dividendRate : Option ℚ := none
  dividendYield : Option ℚ := none
  payoutRatio : Option ℚ := none
  dividendGrowth5Y : Option ℚ := none
  targetMeanPrice : Option ℚ := none
  recommendationKey : Option String := none
  recommendationMean : Option ℚ := none
  averageAnalystRating : Option String := none
  recommendationBreakdown : Option (List (String × ℤ)) := none
  discountToTarget : Option ℚ := none
  pegRatio : Option ℚ := none
  undervaluation_score : Option ℚ := none
deriving DecidableEq

/-- Raw fundamental fields of one symbol: the flat input map of a
`TickerSummary` construction in which the three computed fields are not
supplied by the caller. -/
structure RawFundamentals where
  symbol : String
  name : Option String := none
  currentPrice : Option ℚ := none
  trailingPE : Option ℚ := none
  forwardPE : Option ℚ := none
  priceToBook : Option ℚ := none
  enterpriseToEbitda : Option ℚ := none
  epsTrailingTwelveMonths : Option ℚ := none
  epsForward : Option ℚ := none
  revenueGrowth : Option ℚ := none
  earningsGrowth : Option ℚ := none
  returnOnEquity : Option ℚ := none
  profitMargins : Option ℚ := none
  freeCashflow : Option ℤ := none
  totalDebt : Option ℤ := none
  totalCash : Option ℤ := none
  debtToEquity : Option ℚ := none
  dividendRate : Option ℚ := none
  dividendYield : Option ℚ := none
  payoutRatio : Option ℚ := none
  dividendGrowth5Y : Option ℚ := none
  targetMeanPrice : Option ℚ := none
  recommendationKey : Option String := none
  recommendationMean : Option ℚ := none
  averageAnalystRating : Option String := none
  recommendationBreakdown : Option (List (String × ℤ)) := none
deriving DecidableEq

/-- Pydantic construction of `TickerSummary(**raw)` when only raw
fundamental fields are supplied.  Pydantic runs a field validator only for
fields present in the input; a field that keeps its declared default is not
validated (the validators do not set validate_default).  The three
validators `compute_discount`, `compute_peg`, `compute_score` are therefore
never invoked during such a construction and `discountToTarget`, `pegRatio`
and `undervaluation_score` keep their default `None`. -/
def mkTickerSummaryFromRaw (r : RawFundamentals) : TickerSummary :=
  { symbol := r.symbol
    name := r.name
    currentPrice := r.currentPrice
    trailingPE := r.trailingPE
    forwardPE := r.forwardPE
    priceToBook := r.priceToBook
    enterpriseToEbitda := r.enterpriseToEbitda
    epsTrailingTwelveMonths := r.epsTrailingTwelveMonths
    epsForward := r.epsForward
    revenueGrowth := r.revenueGrowth
    earningsGrowth := r.earningsGrowth
    returnOnEquity := r.returnOnEquity
    profitMargins := r.profitMargins
    freeCashflow := r.freeCashflow
    totalDebt := r.totalDebt
    totalCash := r.totalCash
    debtToEquity := r.debtToEquity
    dividendRate := r.dividendRate
    dividendYield := r.dividendYield
    payoutRatio := r.payoutRatio
    dividendGrowth5Y := r.dividendGrowth5Y
    targetMeanPrice := r.targetMeanPrice
    recommendationKey := r.recommendationKey
    recommendationMean := r.recommendationMean
    averageAnalystRating := r.averageAnalystRating
    recommendationBreakdown := r.recommendationBreakdown
    discountToTarget := none
    pegRatio := none
    undervaluation_score := none }

/-- Concrete flat map of raw fundamentals for one symbol, used as the
failing input of the construction claim. -/
def rawAAPL : RawFundamentals :=
  { symbol := "AAPL"
    currentPrice := some 90
    trailingPE := some 15
    forwardPE := some 20
    earningsGrowth := some 2
    dividendYield := some (1 / 2)
    targetMeanPrice := some 100 }

/-- Python division that signals ZeroDivisionError on a zero denominator,
used to check that every division in the validator bodies is guarded. -/
def pydiv (a b : ℚ) : Except String ℚ :=
  if b = 0 then Except.error "ZeroDivisionError" else Except.ok (a / b)

/-- Variant of `compute_discount` in which the division is the
exception-raising Python division. -/
def compute_discountE (price target : Option ℚ) : Except String (Option ℚ) :=
  match price, target with
  | some p, some t =>
    if p ≠ 0 ∧ t ≠ 0 then (pydiv (t - p) t).map some else Except.ok none
  | _, _ => Except.ok none

/-- Variant of `compute_peg` in which the division is the exception-raising
Python division. -/
def compute_pegE (fpe growth : Option ℚ) : Except String (Option ℚ) :=
  match fpe, growth with
  | some f, some g =>
    if f ≠ 0 ∧ g ≠ 0 then (pydiv f g).map some else Except.ok none
  | _, _ => Except.ok none

/-- Variant of `compute_score` in which the divisions 1/peg and 15/pe are
the exception-raising Python division, sequenced with Except.bind so a
ZeroDivisionError would abort the computation as in Python. -/
def compute_scoreE (discount peg pe dy : Option ℚ) : Except String ℚ :=
  let s0 : ℚ := 0
  let s1 := match discount with
    | some d => s0 + min (max (d * 100) 0) 100 * 0.4
    | none => s0
  Except.bind
    (match peg with
     | some p =>
       if p > 0 then Except.map (fun ip => s1 + min (max (ip * 100) 0) 100 * 0.3) (pydiv 1 p)
       else Except.ok s1
     | none => Except.ok s1)
    (fun s2 => Except.bind
      (match pe with
       | some v =>
         if v > 0 then Except.map (fun iv => s2 + min (max (iv * 100) 0) 100 * 0.2) (pydiv 15 v)
         else Except.ok s2
       | none => Except.ok s2)
      (fun s3 =>
        let s4 := match dy with
          | some y => s3 + min (max (y * 100) 0) 100 * 0.1
          | none => s3
        Except.ok (round2 s4)))

example : compute_discountE (some 90) (some 0) = Except.ok none := by
  norm_num [compute_discountE]

example : compute_pegE (some 20) (some 0) = Except.ok none := by
  norm_num [compute_pegE]

/-- Row of the SQLite table `tickers`
(sqlite_portfolio_repository.py, lines 15-26).  The `id` autoincrement
column plays no role in any operation and is omitted; `created_at` and
`updated_at` are `CURRENT_TIMESTAMP` values, modelled as naturals supplied
by the clock of each call. -/
structure TickerRow where
  symbol : String
  quantity : ℚ
  created_at : Nat
  updated_at : Nat
deriving DecidableEq

/-- Specification-side formula for the undervaluation score before
rounding: the sum of the four weighted clamped terms whose preconditions
hold, a term whose precondition fails contributing nothing to the sum. -/
def specUndervaluationTermSum (discount peg pe dy : Option ℚ) : ℚ :=
  (match discount with
   | some x => min (max (x * 100) 0) 100 * 0.4
   | none => 0)
  + (match peg with
     | some x => if x > 0 then min (max (1 / x * 100) 0) 100 * 0.3 else 0
     | none => 0)
  + (match pe with
     | some x => if x > 0 then min (max (15 / x * 100) 0) 100 * 0.2 else 0
     | none => 0)
  + (match dy with
     | some x => min (max (x * 100) 0) 100 * 0.1
     | none => 0)

/-- Record type of the pydantic model `Ticker` (models.py, lines 5-9).
The source misspells the creation-time field as `createad_at`. -/
structure Ticker where
  symbol : String
  quantity : ℚ
  createad_at : Option Nat := none
  updated_at : Option Nat := none
deriving DecidableEq

/-- Conversion `Ticker(**dict(row))` performed by the repository reads.
The row dict has keys id, symbol, quantity, created_at, updated_at;
pydantic drops the keys that match no model field (default extra
behaviour), so `id` and `created_at` are discarded — `created_at` matches
nothing because the model field is misspelled `createad_at` — and the
`createad_at` field keeps its default `None`. -/
def rowToTicker (r : TickerRow) : Ticker :=
  ⟨r.symbol, r.quantity, none, some r.updated_at⟩

/-- Effect of one `INSERT ... ON CONFLICT(symbol) DO UPDATE` statement of
`save_tracked_tickers` (sqlite_portfolio_repository.py, lines 31-37): a new
row with both timestamps defaulted to the current time when the symbol is
unseen, otherwise an update of `quantity` and `updated_at` of the
conflicting row, leaving `created_at` untouched. -/
def upsertOne (db : List TickerRow) (s : String) (q : ℚ) (now : Nat) : List TickerRow :=
  if db.any (fun r => r.symbol == s) then
    db.map (fun r => if r.symbol = s then ⟨r.symbol, q, r.created_at, now⟩ else r)
  else db ++ [⟨s, q, now, now⟩]

/-- Embedding of `save_tracked_tickers` (lines 28-38): one upsert statement
per list element, in order. -/
def save_tracked_tickers (db : List TickerRow) (tickers : List (String × ℚ))
    (now : Nat) : List TickerRow :=
  tickers.foldl (fun d t => upsertOne d t.1 t.2 now) db

/-- Message of the ValueError raised by the not-found paths. -/
def notFoundMsg (s : String) : String := "Ticker " ++ s ++ " not found"

/-- Embedding of `get_tracked_tickers` (lines 40-45): every row, converted
through the `Ticker` model. -/
def get_tracked_tickers (db : List TickerRow) : List Ticker :=
  db.map rowToTicker

/-- Embedding of `get_tracked_ticker_by_symbol` (lines 47-55): the first
row matching the symbol, or a ValueError. -/
def get_tracked_ticker_by_symbol (db : List TickerRow) (s : String) :
    Except String Ticker :=
  match db.find? (fun r => r.symbol == s) with
  | some r => Except.ok (rowToTicker r)
  | none => Except.error (notFoundMsg s)

/-- Embedding of `delete_tracked_ticker_by_symbol` (lines 57-63): the
DELETE statement removes every matching row; when its rowcount is zero a
ValueError is raised and the table is unchanged, otherwise the call returns
True.  The result pairs the outcome with the table state after the call. -/
def delete_tracked_ticker_by_symbol (db : List TickerRow) (s : String) :
    Except String Bool × List TickerRow :=
  if db.countP (fun r => r.symbol == s) = 0 then
    (Except.error (notFoundMsg s), db)
  else
    (Except.ok true, db.filter (fun r => r.symbol != s))

/-- Uniqueness of symbols across the stored rows, the invariant enforced by
the UNIQUE constraint of the schema. -/
def UniqueSymbols (db : List TickerRow) : Prop :=
  (db.map TickerRow.symbol).Nodup

/-- Calendar timestamp with second precision, the payload of a pandas
Timestamp cell. -/
structure Timestamp where
  year : Nat
  month : Nat
  day : Nat
  hour : Nat
  minute : Nat
  second : Nat
deriving DecidableEq

/-- Zero-padding to two digits. -/
def pad2 (n : Nat) : String :=
  if n < 10 then "0" ++ toString n else toString n

/-- Zero-padding to four digits. -/
def pad4 (n : Nat) : String :=
  if n < 10 then "000" ++ toString n
  else if n < 100 then "00" ++ toString n
  else if n < 1000 then "0" ++ toString n
  else toString n

/-- ISO-8601 representation produced by `Timestamp.isoformat()` for a
whole-second timestamp. -/
def Timestamp.iso (t : Timestamp) : String :=
  pad4 t.year ++ "-" ++ pad2 t.month ++ "-" ++ pad2 t.day ++ "T" ++
    pad2 t.hour ++ ":" ++ pad2 t.minute ++ ":" ++ pad2 t.second

/-- Cell value of a raw pandas table: a missing-value marker (NaN or NaT),
a timestamp, a number, or a string. -/
inductive Val where
  | na : Val
  | ts : Timestamp → Val
  | num : ℚ → Val
  | str : String → Val
deriving DecidableEq

/-- JSON-safe cell value after normalization. -/
inductive JVal where
  | null : JVal
  | str : String → JVal
  | num : ℚ → JVal
deriving DecidableEq

/-- Per-cell transformation of `_df_to_json_safe`
(stock_extraction_service.py, lines 224-232): a pandas Timestamp becomes
its isoformat string, a missing value becomes None, anything else passes
through unchanged.  The source tests `isinstance(val, pd.Timestamp)` before
`pd.isna(val)`; the constructors here are disjoint so the order is
immaterial. -/
def jsonSafeVal : Val → JVal
  | Val.ts t => JVal.str t.iso
  | Val.na => JVal.null
  | Val.num q => JVal.num q
  | Val.str s => JVal.str s

/-- Embedding of `_df_to_json_safe` applied to the record list of a
DataFrame (`df.to_dict(orient="records")` yields one column-to-value
mapping per row, in row order). -/
def df_to_json_safe (rows : List (List (String × Val))) :
    List (List (String × JVal)) :=
  rows.map (fun row => row.map (fun cv => (cv.1, jsonSafeVal cv.2)))

/-- Period-indexed table: index labels (the reporting periods), column
names, and a cell lookup; `none` is a missing cell (NaN). -/
structure DF where
  idx : List String
  cols : List String
  cell : String → String → Option Val

/-- Column renaming performed by `DataFrame.join` on the columns of one
side: a suffix is appended exactly when the name also occurs on the other
side. -/
def renameCol (others : List String) (suf : String) (c : String) : String :=
  if c ∈ others then c ++ suf else c

/-- Embedding of `left.join(right, how="outer", lsuffix, rsuffix)`: the
index becomes the union of both indexes (left labels first), overlapping
column names get the respective suffix on each side, and a cell of a row
absent from one source is missing for that source's columns. -/
def DF.join (l r : DF) (lsuf rsuf : String) : DF :=
  ⟨l.idx ++ r.idx.filter (fun p => !(l.idx.contains p)),
   l.cols.map (renameCol r.cols lsuf) ++ r.cols.map (renameCol l.cols rsuf),
   fun p c =>
     match l.cols.find? (fun c0 => renameCol r.cols lsuf c0 == c) with
     | some c0 => if p ∈ l.idx then l.cell p c0 else none
     | none =>
       match r.cols.find? (fun c0 => renameCol l.cols rsuf c0 == c) with
       | some c0 => if p ∈ r.idx then r.cell p c0 else none
       | none => none⟩

/-- Embedding of `.reset_index().rename(columns={"index": "period"})`: the
former row labels become an ordinary first column named `period`. -/
def DF.resetIndexPeriod (d : DF) : DF :=
  ⟨d.idx, "period" :: d.cols,
   fun p c => if c = "period" then some (Val.str p) else d.cell p c⟩

/-- Embedding of `_join_financial_statements`
(stock_extraction_service.py, lines 216-222): outer join of the primary
statement with the balance sheet (suffixes `_income` and `_balance` on the
two sides), then with the cash-flow statement (suffix `_cashflow` on the
cash-flow side only), then reset of the period index. -/
def joinFinancialStatements (income balance cash : DF) : DF :=
  ((income.join balance "_income" "_balance").join cash "" "_cashflow").resetIndexPeriod

/-- Example primary statement with periods Q1 and Q2 and one line item. -/
def dfIncomeEx : DF :=
  ⟨["Q1", "Q2"], ["Revenue"],
   fun p cn =>
     if p = "Q1" ∧ cn = "Revenue" then some (Val.num 10)
     else if p = "Q2" ∧ cn = "Revenue" then some (Val.num 20)
     else none⟩

/-- Example balance sheet with periods Q1 and Q3 and one line item. -/
def dfBalanceEx : DF :=
  ⟨["Q1", "Q3"], ["Assets"],
   fun p cn =>
     if p = "Q1" ∧ cn = "Assets" then some (Val.num 100)
     else if p = "Q3" ∧ cn = "Assets" then some (Val.num 300)
     else none⟩

/-- Example cash-flow statement with period Q2 and one line item. -/
def dfCashEx : DF :=
  ⟨["Q2"], ["FreeCashFlow"],
   fun p cn =>
     if p = "Q2" ∧ cn = "FreeCashFlow" then some (Val.num 7)
     else none⟩

/-! Helper lemmas about the Portfolio Store. -/

theorem any_symbol_eq_false {db : List TickerRow} {s : String}
    (h : ∀ r ∈ db, r.symbol ≠ s) :
    db.any (fun r => r.symbol == s) = false := by
  simp only [List.any_eq_false]
  intro r hr
  simpa using h r hr

theorem upsertOne_fresh {db : List TickerRow} {s : String} (q : ℚ) (now : Nat)
    (h : ∀ r ∈ db, r.symbol ≠ s) :
    upsertOne db s q now = db ++ [⟨s, q, now, now⟩] := by
  unfold upsertOne
  rw [any_symbol_eq_false h]
  simp

theorem upsertOne_append_hit (db : List TickerRow) (s : String)
    (q1 q2 : ℚ) (t1 u1 t2 : Nat) (h : ∀ r ∈ db, r.symbol ≠ s) :
    upsertOne (db ++ [⟨s, q1, t1, u1⟩]) s q2 t2 = db ++ [⟨s, q2, t1, t2⟩] := by
  unfold upsertOne
  have hany : ((db ++ [(⟨s, q1, t1, u1⟩ : TickerRow)]).any
      (fun r => r.symbol == s)) = true := by simp
  rw [hany]
  simp only [if_true, List.map_append]
  have h1 : db.map
      (fun r => if r.symbol = s then (⟨r.symbol, q2, r.created_at, t2⟩ : TickerRow) else r)
      = db.map id :=
    List.map_congr_left (fun r hr => if_neg (h r hr))
  rw [h1, List.map_id]
  simp

theorem filter_no_symbol {db : List TickerRow} {s : String}
    (h : ∀ r ∈ db, r.symbol ≠ s) :
    db.filter (fun r => r.symbol == s) = [] := by
  rw [List.filter_eq_nil_iff]
  intro r hr
  simpa using h r hr

/-- C4: upserting the same symbol twice with different quantities leaves a
single stored record for it, holding the second quantity, the creation time
assigned by the first upsert, and the update time of the second upsert;
with the clock advancing between the calls, updated_at strictly increases
from the first upsert (where it equals t1) to the second (where it equals
t2). -/
theorem upsert_twice_single_record (db : List TickerRow) (s : String)
    (q1 q2 : ℚ) (t1 t2 : Nat) (hfresh : ∀ r ∈ db, r.symbol ≠ s)
    (ht : t1 < t2) (hq : q1 ≠ q2) :
    (save_tracked_tickers (save_tracked_tickers db [(s, q1)] t1) [(s, q2)] t2).filter
        (fun r => r.symbol == s) = [⟨s, q2, t1, t2⟩]
    ∧ (save_tracked_tickers db [(s, q1)] t1).filter (fun r => r.symbol == s)
        = [⟨s, q1, t1, t1⟩]
    ∧ t1 < t2 := by
  have hdb1 : save_tracked_tickers db [(s, q1)] t1 = db ++ [⟨s, q1, t1, t1⟩] := by
    simp [save_tracked_tickers, upsertOne_fresh q1 t1 hfresh]
  have hdb2 : save_tracked_tickers (save_tracked_tickers db [(s, q1)] t1) [(s, q2)] t2
      = db ++ [⟨s, q2, t1, t2⟩] := by
    rw [hdb1]
    simp [save_tracked_tickers, upsertOne_append_hit db s q1 q2 t1 t1 t2 hfresh]
  refine ⟨?_, ?_, ht⟩
  · rw [hdb2, List.filter_append, filter_no_symbol hfresh]
    simp
  · rw [hdb1, List.filter_append, filter_no_symbol hfresh]
    simp

/-- C4 witness: concrete two-step upsert of symbol A with quantities 1 then
2 at times 0 and 1. -/
theorem upsert_twice_single_record_witness :
    (save_tracked_tickers (save_tracked_tickers [] [("A", 1)] 0) [("A", 2)] 1).filter
        (fun r => r.symbol == "A") = [⟨"A", 2, 0, 1⟩]
    ∧ (save_tracked_tickers [] [("A", 1)] 0).filter (fun r => r.symbol == "A")
        = [⟨"A", 1, 0, 0⟩]
    ∧ 0 < 1 :=
  upsert_twice_single_record [] "A" 1 2 0 1 (by simp) (by norm_num) (by norm_num)

/-- C5: after one upsert of AAPL with quantity 10 at time 5 into an empty
store, the stored row carries created_at = updated_at = 5, but the record
returned by get_tracked_ticker_by_symbol has no creation timestamp at all:
the model field is misspelled createad_at, so the created_at column is
dropped during conversion and the field keeps its default None. -/
theorem get_by_symbol_missing_created_at :
    save_tracked_tickers [] [("AAPL", 10)] 5 = [⟨"AAPL", 10, 5, 5⟩]
    ∧ get_tracked_ticker_by_symbol (save_tracked_tickers [] [("AAPL", 10)] 5) "AAPL"
        = Except.ok ⟨"AAPL", 10, none, some 5⟩ := by
  constructor
  · rfl
  · rfl

theorem no_symbol_iff_countP_zero (db : List TickerRow) (s : String) :
    (∀ r ∈ db, r.symbol ≠ s) ↔ db.countP (fun r => r.symbol == s) = 0 := by
  rw [List.countP_eq_zero]
  constructor <;> intro h r hr <;> simpa using h r hr

/-- C6: both lookup and delete fail with the not-found error exactly when
no stored row has the symbol; a failed delete leaves the table unchanged;
a successful delete returns True and removes the rows with that symbol, so
a following lookup of the same symbol fails with the not-found error. -/
theorem store_not_found_semantics (db : List TickerRow) (s : String) :
    (get_tracked_ticker_by_symbol db s = Except.error (notFoundMsg s)
      ↔ ∀ r ∈ db, r.symbol ≠ s)
    ∧ ((delete_tracked_ticker_by_symbol db s).1 = Except.error (notFoundMsg s)
      ↔ ∀ r ∈ db, r.symbol ≠ s)
    ∧ ((∀ r ∈ db, r.symbol ≠ s) → (delete_tracked_ticker_by_symbol db s).2 = db)
    ∧ ((∃ r ∈ db, r.symbol = s) →
        (delete_tracked_ticker_by_symbol db s).1 = Except.ok true
        ∧ get_tracked_ticker_by_symbol (delete_tracked_ticker_by_symbol db s).2 s
            = Except.error (notFoundMsg s)) := by
  refine ⟨?_, ?_, ?_, ?_⟩
  · unfold get_tracked_ticker_by_symbol
    cases hf : db.find? (fun r => r.symbol == s) with
    | none =>
      have hall := List.find?_eq_none.mp hf
      constructor
      · intro _ r hr
        simpa using hall r hr
      · intro _
        rfl
    | some r =>
      have hmem := List.mem_of_find?_eq_some hf
      have hsym : r.symbol = s := by simpa using List.find?_some hf
      simp only [reduceCtorEq, false_iff]
      intro hall
      exact hall r hmem hsym
  · by_cases hc : db.countP (fun r => r.symbol == s) = 0
    · simp only [delete_tracked_ticker_by_symbol, if_pos hc, true_iff]
      exact (no_symbol_iff_countP_zero db s).mpr hc
    · simp only [delete_tracked_ticker_by_symbol, if_neg hc]
      simp only [reduceCtorEq, false_iff]
      intro hall
      exact hc ((no_symbol_iff_countP_zero db s).mp hall)
  · intro hall
    have hc := (no_symbol_iff_countP_zero db s).mp hall
    unfold delete_tracked_ticker_by_symbol
    rw [if_pos hc]
  · rintro ⟨r, hr, hsym⟩
    have hc : db.countP (fun r => r.symbol == s) ≠ 0 := by
      intro hc
      exact ((no_symbol_iff_countP_zero db s).mpr hc) r hr hsym
    refine ⟨?_, ?_⟩
    · unfold delete_tracked_ticker_by_symbol
      rw [if_neg hc]
    unfold delete_tracked_ticker_by_symbol
    rw [if_neg hc]
    unfold get_tracked_ticker_by_symbol
    have hfind : (db.filter (fun r => r.symbol != s)).find?
        (fun r => r.symbol == s) = none := by
      rw [List.find?_eq_none]
      intro x hx
      have := (List.mem_filter.mp hx).2
      simpa using this
    rw [hfind]

/-- C6 witness: a store holding only AAPL; deleting MSFT fails and leaves
the store unchanged, deleting AAPL succeeds and a following lookup of AAPL
fails. -/
theorem store_not_found_semantics_witness :
    ((delete_tracked_ticker_by_symbol [⟨"AAPL", 10, 0, 0⟩] "MSFT").1
      = Except.error (notFoundMsg "MSFT"))
    ∧ (delete_tracked_ticker_by_symbol [⟨"AAPL", 10, 0, 0⟩] "MSFT").2
      = [⟨"AAPL", 10, 0, 0⟩]
    ∧ (delete_tracked_ticker_by_symbol [⟨"AAPL", 10, 0, 0⟩] "AAPL").1
      = Except.ok true
    ∧ get_tracked_ticker_by_symbol
        (delete_tracked_ticker_by_symbol [⟨"AAPL", 10, 0, 0⟩] "AAPL").2 "AAPL"
      = Except.error (notFoundMsg "AAPL") := by
  have h1 := store_not_found_semantics [⟨"AAPL", 10, 0, 0⟩] "MSFT"
  have h2 := store_not_found_semantics [⟨"AAPL", 10, 0, 0⟩] "AAPL"
  have hm : ∀ r ∈ [(⟨"AAPL", 10, 0, 0⟩ : TickerRow)], r.symbol ≠ "MSFT" := by
    intro r hr
    simp at hr
    simp [hr]
  have he : ∃ r ∈ [(⟨"AAPL", 10, 0, 0⟩ : TickerRow)], r.symbol = "AAPL" :=
    ⟨⟨"AAPL", 10, 0, 0⟩, by simp, rfl⟩
  exact ⟨h1.2.1.mpr hm, h1.2.2.1 hm, (h2.2.2.2 he).1, (h2.2.2.2 he).2⟩

theorem upsertOne_preserves_unique (db : List TickerRow) (s : String)
    (q : ℚ) (now : Nat) (h : UniqueSymbols db) :
    UniqueSymbols (upsertOne db s q now) := by
  unfold upsertOne
  by_cases hany : db.any (fun r => r.symbol == s) = true
  · rw [if_pos hany]
    unfold UniqueSymbols at h ⊢
    rw [List.map_map]
    have heq : db.map (TickerRow.symbol ∘
        fun r => if r.symbol = s then (⟨r.symbol, q, r.created_at, now⟩ : TickerRow) else r)
        = db.map TickerRow.symbol := by
      apply List.map_congr_left
      intro r _
      by_cases hrs : r.symbol = s <;> simp [hrs]
    rw [heq]
    exact h
  · rw [if_neg hany]
    have hfalse : db.any (fun r => r.symbol == s) = false := by
      revert hany
      cases db.any (fun r => r.symbol == s) <;> simp
    rw [List.any_eq_false] at hfalse
    unfold UniqueSymbols at h ⊢
    rw [List.map_append, List.nodup_append]
    refine ⟨h, by simp, ?_⟩
    intro a ha hb
    simp only [List.map_cons, List.map_nil, List.mem_singleton] at hb
    rcases List.mem_map.mp ha with ⟨r, hr, hra⟩
    have hrs : r.symbol ≠ s := by simpa using hfalse r hr
    exact hrs (hra.trans hb)

theorem save_preserves_unique (tickers : List (String × ℚ)) (now : Nat) :
    ∀ db : List TickerRow, UniqueSymbols db →
      UniqueSymbols (save_tracked_tickers db tickers now) := by
  induction tickers with
  | nil =>
    intro db h
    simpa [save_tracked_tickers] using h
  | cons t ts ih =>
    intro db h
    simp only [save_tracked_tickers, List.foldl_cons] at ih ⊢
    exact ih _ (upsertOne_preserves_unique db t.1 t.2 now h)

/-- C7: saving any ticker list and deleting any symbol preserve the
one-record-per-symbol invariant, and a single save call whose input repeats
a symbol still leaves exactly one record for it, holding the last quantity
of the list. -/
theorem store_unique_symbol_invariant (db : List TickerRow)
    (tickers : List (String × ℚ)) (s : String) (q1 q2 : ℚ) (now : Nat)
    (hinv : UniqueSymbols db) :
    UniqueSymbols (save_tracked_tickers db tickers now)
    ∧ UniqueSymbols (delete_tracked_ticker_by_symbol db s).2
    ∧ ((∀ r ∈ db, r.symbol ≠ s) →
        (save_tracked_tickers db [(s, q1), (s, q2)] now).filter
          (fun r => r.symbol == s) = [⟨s, q2, now, now⟩]) := by
  refine ⟨save_preserves_unique tickers now db hinv, ?_, ?_⟩
  · unfold delete_tracked_ticker_by_symbol
    by_cases hc : db.countP (fun r => r.symbol == s) = 0
    · rw [if_pos hc]
      exact hinv
    · rw [if_neg hc]
      unfold UniqueSymbols at hinv ⊢
      exact hinv.sublist (List.Sublist.map _ (List.filter_sublist db))
  · intro hfresh
    have hstep : save_tracked_tickers db [(s, q1), (s, q2)] now
        = db ++ [⟨s, q2, now, now⟩] := by
      simp only [save_tracked_tickers, List.foldl_cons, List.foldl_nil]
      rw [upsertOne_fresh q1 now hfresh]
      exact upsertOne_append_hit db s q1 q2 now now now hfresh
    rw [hstep, List.filter_append, filter_no_symbol hfresh]
    simp

/-- C7 witness: a store holding only B stays duplicate-free under a save of
A, under a failed delete of A, and a save repeating A twice stores only the
last quantity. -/
theorem store_unique_symbol_invariant_witness :
    UniqueSymbols (save_tracked_tickers [⟨"B", 1, 0, 0⟩] [("A", 2)] 3)
    ∧ UniqueSymbols (delete_tracked_ticker_by_symbol [⟨"B", 1, 0, 0⟩] "A").2
    ∧ (save_tracked_tickers [⟨"B", 1, 0, 0⟩] [("A", 5), ("A", 7)] 3).filter
        (fun r => r.symbol == "A") = [⟨"A", 7, 3, 3⟩] := by
  have hB : UniqueSymbols [(⟨"B", 1, 0, 0⟩ : TickerRow)] := by
    simp [UniqueSymbols]
  have h := store_unique_symbol_invariant [⟨"B", 1, 0, 0⟩] [("A", 2)] "A" 5 7 3 hB
  refine ⟨h.1, h.2.1, h.2.2 ?_⟩
  intro r hr
  simp at hr
  simp [hr]

/-- C9: the Record Normalizer keeps the length and order of the row
sequence and the column order of each row, replaces a missing-value marker
by null and a timestamp by its ISO-8601 string, passes every other value
through unchanged, and maps an empty table to an empty sequence. -/
theorem df_to_json_safe_spec (rows : List (List (String × Val))) (i j : Nat) :
    (df_to_json_safe rows).length = rows.length
    ∧ ((df_to_json_safe rows)[i]?.bind fun row => row[j]?)
        = ((rows[i]?.bind fun row => row[j]?).map fun cv => (cv.1, jsonSafeVal cv.2))
    ∧ jsonSafeVal Val.na = JVal.null
    ∧ (∀ t : Timestamp, jsonSafeVal (Val.ts t) = JVal.str t.iso)
    ∧ (∀ q : ℚ, jsonSafeVal (Val.num q) = JVal.num q)
    ∧ (∀ s : String, jsonSafeVal (Val.str s) = JVal.str s)
    ∧ df_to_json_safe [] = [] := by
  refine ⟨by simp [df_to_json_safe], ?_, rfl, fun _ => rfl, fun _ => rfl, fun _ => rfl, rfl⟩
  cases h : rows[i]? with
  | none => simp [df_to_json_safe, h]
  | some row => simp [df_to_json_safe, h]

/-- C1: constructing a TickerSummary from the raw fundamentals of one
symbol, with the three computed fields not supplied, copies the raw fields
but leaves discountToTarget, pegRatio and undervaluation_score at null: the
pydantic validators do not run for unsupplied fields, while the Section-3
formulas on the same raw fields yield 0.10, 10 and 32. -/
theorem ticker_summary_construction_skips_derivation :
    (mkTickerSummaryFromRaw rawAAPL).symbol = "AAPL"
    ∧ (mkTickerSummaryFromRaw rawAAPL).currentPrice = some 90
    ∧ (mkTickerSummaryFromRaw rawAAPL).targetMeanPrice = some 100
    ∧ (mkTickerSummaryFromRaw rawAAPL).trailingPE = some 15
    ∧ (mkTickerSummaryFromRaw rawAAPL).forwardPE = some 20
    ∧ (mkTickerSummaryFromRaw rawAAPL).earningsGrowth = some 2
    ∧ (mkTickerSummaryFromRaw rawAAPL).dividendYield = some (1 / 2)
    ∧ (mkTickerSummaryFromRaw rawAAPL).discountToTarget = none
    ∧ (mkTickerSummaryFromRaw rawAAPL).pegRatio = none
    ∧ (mkTickerSummaryFromRaw rawAAPL).undervaluation_score = none
    ∧ compute_discount rawAAPL.currentPrice rawAAPL.targetMeanPrice = some (1 / 10)
    ∧ compute_peg rawAAPL.forwardPE rawAAPL.earningsGrowth = some 10
    ∧ compute_score (some (1 / 10)) (some 10) (some 15) (some (1 / 2)) = 32 := by
  refine ⟨rfl, rfl, rfl, rfl, rfl, rfl, rfl, rfl, rfl, rfl, ?_, ?_, ?_⟩
  · norm_num [rawAAPL, compute_discount]
  · norm_num [rawAAPL, compute_peg]
  · norm_num [compute_score, round2, roundHalfEven, Int.fract, max_def, min_def]

/-- C2 counterexample: with currentPrice = 0 (present, non-null) and
targetMeanPrice = 100 (nonzero) the code yields null, not the claimed
(100 − 0)/100 = 1; likewise forwardPE = 0 with earningsGrowth = 5 yields
null, not 0/5. -/
theorem compute_discount_zero_price_counterexample :
    compute_discount (some 0) (some 100) = none
    ∧ compute_discount (some 0) (some 100) ≠ some ((100 - 0) / 100)
    ∧ compute_peg (some 0) (some 5) = none
    ∧ compute_peg (some 0) (some 5) ≠ some (0 / 5) := by
  refine ⟨?_, ?_, ?_, ?_⟩ <;> simp [compute_discount, compute_peg]

/-- C2 amended: discountToTarget is defined, with value
(target − price)/target, exactly when both inputs are present and both are
nonzero (Python truthiness makes a zero float count as missing), and null
otherwise; pegRatio likewise equals forwardPE/earningsGrowth exactly when
both are present and nonzero.  The three particulars of the claim hold
unchanged. -/
theorem compute_discount_peg_characterization (price target fpe growth : Option ℚ) :
    (∀ x, compute_discount price target = some x ↔
      ∃ p t, price = some p ∧ target = some t ∧ p ≠ 0 ∧ t ≠ 0 ∧ x = (t - p) / t)
    ∧ (∀ x, compute_peg fpe growth = some x ↔
      ∃ f g, fpe = some f ∧ growth = some g ∧ f ≠ 0 ∧ g ≠ 0 ∧ x = f / g)
    ∧ compute_discount (some 90) (some 100) = some (1 / 10)
    ∧ compute_discount price (some 0) = none
    ∧ compute_peg fpe (some 0) = none := by
  refine ⟨?_, ?_, ?_, ?_, ?_⟩
  · intro x
    cases price with
    | none => simp [compute_discount]
    | some p =>
      cases target with
      | none => simp [compute_discount]
      | some t =>
        simp only [compute_discount]
        split_ifs with h
        · constructor
          · intro hx
            exact ⟨p, t, rfl, rfl, h.1, h.2, (Option.some.inj hx).symm⟩
          · rintro ⟨p2, t2, hp2, ht2, _, _, hx⟩
            cases hp2
            cases ht2
            simp [hx]
        · constructor
          · intro hx
            exact absurd hx (by simp)
          · rintro ⟨p2, t2, hp2, ht2, hp0, ht0, _⟩
            cases hp2
            cases ht2
            exact absurd ⟨hp0, ht0⟩ h
  · intro x
    cases fpe with
    | none => simp [compute_peg]
    | some f =>
      cases growth with
      | none => simp [compute_peg]
      | some g =>
        simp only [compute_peg]
        split_ifs with h
        · constructor
          · intro hx
            exact ⟨f, g, rfl, rfl, h.1, h.2, (Option.some.inj hx).symm⟩
          · rintro ⟨f2, g2, hf2, hg2, _, _, hx⟩
            cases hf2
            cases hg2
            simp [hx]
        · constructor
          · intro hx
            exact absurd hx (by simp)
          · rintro ⟨f2, g2, hf2, hg2, hf0, hg0, _⟩
            cases hf2
            cases hg2
            exact absurd ⟨hf0, hg0⟩ h
  · norm_num [compute_discount]
  · cases price <;> simp [compute_discount]
  · cases fpe <;> simp [compute_peg]

theorem except_bind_ok (a : ℚ) (f : ℚ → Except String ℚ) :
    Except.bind (Except.ok a) f = f a := rfl

theorem stepE_ok (s w num : ℚ) (x : Option ℚ) :
    (match x with
     | some v =>
       if v > 0 then Except.map (fun iv => s + min (max (iv * 100) 0) 100 * w) (pydiv num v)
       else Except.ok s
     | none => Except.ok s)
    = Except.ok (match x with
       | some v => if v > 0 then s + min (max (num / v * 100) 0) 100 * w else s
       | none => s) := by
  rcases x with _ | v
  · rfl
  · dsimp only
    by_cases hv : v > 0
    · rw [if_pos hv, if_pos hv]
      simp [pydiv, ne_of_gt hv, Except.map]
    · rw [if_neg hv, if_neg hv]

/-- C10: the derivation functions are total and never raise: on every
combination of null and numeric inputs, including the zero-denominator
cases, the exception-tracking variants return Except.ok of the pure result
and never the ZeroDivisionError branch. -/
theorem validators_never_raise (price target fpe growth discount peg pe dy : Option ℚ) :
    compute_discountE price target = Except.ok (compute_discount price target)
    ∧ compute_pegE fpe growth = Except.ok (compute_peg fpe growth)
    ∧ compute_scoreE discount peg pe dy = Except.ok (compute_score discount peg pe dy)
    ∧ compute_discountE (some 90) (some 0) = Except.ok none
    ∧ compute_pegE (some 20) (some 0) = Except.ok none
    ∧ compute_scoreE none (some 0) (some 0) none = Except.ok 0 := by
  have hgen : ∀ a b c d : Option ℚ,
      compute_scoreE a b c d = Except.ok (compute_score a b c d) := by
    intro a b c d
    simp only [compute_scoreE, compute_score, stepE_ok, except_bind_ok]
  refine ⟨?_, ?_, hgen discount peg pe dy, ?_, ?_, ?_⟩
  · cases price with
    | none => rfl
    | some p =>
      cases target with
      | none => rfl
      | some t =>
        simp only [compute_discountE, compute_discount]
        split_ifs with h
        · simp [pydiv, h.2, Except.map]
        · rfl
  · cases fpe with
    | none => rfl
    | some f =>
      cases growth with
      | none => rfl
      | some g =>
        simp only [compute_pegE, compute_peg]
        split_ifs with h
        · simp [pydiv, h.2, Except.map]
        · rfl
  · norm_num [compute_discountE]
  · norm_num [compute_pegE]
  · rw [hgen]
    norm_num [compute_score, round2, roundHalfEven, Int.fract, max_def, min_def]

theorem clamp_nonneg (u : ℚ) : 0 ≤ min (max u 0) 100 :=
  le_min (le_max_right u 0) (by norm_num)

theorem clamp_le (u : ℚ) : min (max u 0) 100 ≤ 100 :=
  min_le_right _ _

theorem discountTerm_bounds (d : Option ℚ) :
    0 ≤ (match d with | some x => min (max (x * 100) 0) 100 * 0.4 | none => (0:ℚ))
    ∧ (match d with | some x => min (max (x * 100) 0) 100 * 0.4 | none => (0:ℚ)) ≤ 40 := by
  rcases d with _ | x
  · norm_num
  · dsimp only
    constructor
    · exact mul_nonneg (clamp_nonneg _) (by norm_num)
    · nlinarith [clamp_le (x * 100)]

theorem pegTerm_bounds (p : Option ℚ) :
    0 ≤ (match p with
         | some x => if x > 0 then min (max (1 / x * 100) 0) 100 * 0.3 else 0
         | none => (0:ℚ))
    ∧ (match p with
       | some x => if x > 0 then min (max (1 / x * 100) 0) 100 * 0.3 else 0
       | none => (0:ℚ)) ≤ 30 := by
  rcases p with _ | x
  · norm_num
  · dsimp only
    split_ifs
    · constructor
      · exact mul_nonneg (clamp_nonneg _) (by norm_num)
      · nlinarith [clamp_le (1 / x * 100)]
    · norm_num

theorem peTerm_bounds (pe : Option ℚ) :
    0 ≤ (match pe with
         | some x => if x > 0 then min (max (15 / x * 100) 0) 100 * 0.2 else 0
         | none => (0:ℚ))
    ∧ (match pe with
       | some x => if x > 0 then min (max (15 / x * 100) 0) 100 * 0.2 else 0
       | none => (0:ℚ)) ≤ 20 := by
  rcases pe with _ | x
  · norm_num
  · dsimp only
    split_ifs
    · constructor
      · exact mul_nonneg (clamp_nonneg _) (by norm_num)
      · nlinarith [clamp_le (15 / x * 100)]
    · norm_num

theorem dividendTerm_bounds (dy : Option ℚ) :
    0 ≤ (match dy with | some x => min (max (x * 100) 0) 100 * 0.1 | none => (0:ℚ))
    ∧ (match dy with | some x => min (max (x * 100) 0) 100 * 0.1 | none => (0:ℚ)) ≤ 10 := by
  rcases dy with _ | x
  · norm_num
  · dsimp only
    constructor
    · exact mul_nonneg (clamp_nonneg _) (by norm_num)
    · nlinarith [clamp_le (x * 100)]

theorem specTermSum_bounds (d p pe dy : Option ℚ) :
    0 ≤ specUndervaluationTermSum d p pe dy
    ∧ specUndervaluationTermSum d p pe dy ≤ 100 := by
  unfold specUndervaluationTermSum
  have h1 := discountTerm_bounds d
  have h2 := pegTerm_bounds p
  have h3 := peTerm_bounds pe
  have h4 := dividendTerm_bounds dy
  constructor
  · linarith [h1.1, h2.1, h3.1, h4.1]
  · linarith [h1.2, h2.2, h3.2, h4.2]

theorem roundHalfEven_nonneg (y : ℚ) (hy : 0 ≤ y) : 0 ≤ roundHalfEven y := by
  have h0 : (0:ℤ) ≤ ⌊y⌋ := Int.floor_nonneg.mpr hy
  unfold roundHalfEven
  split_ifs <;> omega

theorem roundHalfEven_le (y : ℚ) (B : ℤ) (hy : y ≤ (B:ℚ)) : roundHalfEven y ≤ B := by
  have hfl : ⌊y⌋ ≤ B := by
    have h := Int.floor_le_floor hy
    simpa using h
  have hstep : ¬ Int.fract y < 1 / 2 → ⌊y⌋ + 1 ≤ B := by
    intro h1
    have hge : (1:ℚ)/2 ≤ Int.fract y := le_of_not_lt h1
    have hpos : 0 < Int.fract y := lt_of_lt_of_le (by norm_num) hge
    rw [Int.fract] at hpos
    have hlt : (⌊y⌋:ℚ) < (B:ℚ) := by linarith
    have : ⌊y⌋ < B := by exact_mod_cast hlt
    omega
  unfold roundHalfEven
  split_ifs with h1 h2 h3
  · exact hfl
  · exact hstep h1
  · exact hfl
  · exact hstep h1

theorem round2_bounds (x : ℚ) (h0 : 0 ≤ x) (h1 : x ≤ 100) :
    0 ≤ round2 x ∧ round2 x ≤ 100 := by
  have hy0 : 0 ≤ x * 100 := mul_nonneg h0 (by norm_num)
  have hy1 : x * 100 ≤ ((10000:ℤ):ℚ) := by push_cast; linarith
  have hr0 := roundHalfEven_nonneg (x * 100) hy0
  have hr1 := roundHalfEven_le (x * 100) 10000 hy1
  unfold round2
  constructor
  · apply div_nonneg _ (by norm_num)
    exact_mod_cast hr0
  · rw [div_le_iff (by norm_num : (0:ℚ) < 100)]
    have : ((roundHalfEven (x * 100)):ℚ) ≤ ((10000:ℤ):ℚ) := by exact_mod_cast hr1
    push_cast at this
    linarith

/-- C3: the undervaluation score equals the two-decimal rounding of the sum
of exactly the weighted clamped terms whose preconditions hold (omitted
terms contribute nothing), the result always lies in [0, 100], a lone
discount of 0.5 scores exactly 20, and all-null input scores 0 (a number,
not null). -/
theorem compute_score_spec (d p pe dy : Option ℚ) :
    compute_score d p pe dy = round2 (specUndervaluationTermSum d p pe dy)
    ∧ 0 ≤ compute_score d p pe dy ∧ compute_score d p pe dy ≤ 100
    ∧ compute_score (some (1 / 2)) none none none = 20
    ∧ compute_score none none none none = 0 := by
  have heq : ∀ a b c e : Option ℚ,
      compute_score a b c e = round2 (specUndervaluationTermSum a b c e) := by
    intro a b c e
    simp only [compute_score, specUndervaluationTermSum]
    congr 1
    rcases a with _ | x1 <;> rcases b with _ | x2 <;> rcases c with _ | x3 <;>
      rcases e with _ | x4 <;> dsimp only <;> (try split_ifs) <;> ring
  have hb := specTermSum_bounds d p pe dy
  have hr := round2_bounds _ hb.1 hb.2
  refine ⟨heq d p pe dy, ?_, ?_, ?_, ?_⟩
  · rw [heq]
    exact hr.1
  · rw [heq]
    exact hr.2
  · norm_num [compute_score, round2, roundHalfEven, Int.fract, max_def, min_def]
  · norm_num [compute_score, round2, roundHalfEven, Int.fract, max_def, min_def]

theorem string_append_empty (s : String) : s ++ "" = s := by
  cases s
  simp [String.append]

theorem renameCol_empty (others : List String) (cn : String) :
    renameCol others "" cn = cn := by
  unfold renameCol
  split_ifs
  · exact string_append_empty cn
  · rfl

theorem map_renameCol_empty (others l : List String) :
    l.map (renameCol others "") = l := by
  have h : l.map (renameCol others "") = l.map id :=
    List.map_congr_left (fun a _ => renameCol_empty others a)
  rw [h, List.map_id]

theorem contains_false_iff (l : List String) (a : String) :
    (l.contains a = false) ↔ a ∉ l := by
  simp

theorem join_idx_nodup (l r : List String) (hl : l.Nodup) (hr : r.Nodup) :
    (l ++ r.filter (fun p => !(l.contains p))).Nodup := by
  rw [List.nodup_append]
  refine ⟨hl, hr.filter _, ?_⟩
  intro a ha hb
  have hmem := (List.mem_filter.mp hb).2
  simp only [Bool.not_eq_true'] at hmem
  exact (contains_false_iff l a).mp hmem ha

/-- C8: the merged table has one row per period occurring in any of the
three inputs (membership in the merged index is exactly membership in one
of the input indexes, and the merged index is duplicate-free), its columns
are the period column followed by the union of all input columns with the
primary/balance overlaps suffixed on both sides and the cash-flow overlaps
suffixed only on the cash-flow side, the former row label is exposed as an
ordinary period column, and a period missing from the primary input has
null cells in all of the primary input's columns. -/
theorem join_financial_statements_spec (inc bal cfl : DF)
    (hi : inc.idx.Nodup) (hb : bal.idx.Nodup) (hc : cfl.idx.Nodup)
    (hper : "period" ∉ inc.cols.map (renameCol bal.cols "_income")) :
    (∀ q, q ∈ (joinFinancialStatements inc bal cfl).idx ↔
      q ∈ inc.idx ∨ q ∈ bal.idx ∨ q ∈ cfl.idx)
    ∧ (joinFinancialStatements inc bal cfl).idx.Nodup
    ∧ (joinFinancialStatements inc bal cfl).cols =
        "period" ::
          ((inc.cols.map (renameCol bal.cols "_income")
            ++ bal.cols.map (renameCol inc.cols "_balance"))
           ++ cfl.cols.map (renameCol
                (inc.cols.map (renameCol bal.cols "_income")
                  ++ bal.cols.map (renameCol inc.cols "_balance")) "_cashflow"))
    ∧ (∀ q, (joinFinancialStatements inc bal cfl).cell q "period"
        = some (Val.str q))
    ∧ (∀ q, q ∈ (joinFinancialStatements inc bal cfl).idx → q ∉ inc.idx →
        ∀ c0 ∈ inc.cols,
          (joinFinancialStatements inc bal cfl).cell q
            (renameCol bal.cols "_income" c0) = none) := by
  refine ⟨?_, ?_, ?_, ?_, ?_⟩
  · intro q
    simp only [joinFinancialStatements, DF.resetIndexPeriod, DF.join,
      List.mem_append, List.mem_filter, Bool.not_eq_true', contains_false_iff]
    tauto
  · simp only [joinFinancialStatements, DF.resetIndexPeriod, DF.join]
    exact join_idx_nodup _ _ (join_idx_nodup _ _ hi hb) hc
  · simp only [joinFinancialStatements, DF.resetIndexPeriod, DF.join]
    rw [map_renameCol_empty]
  · intro q
    simp [joinFinancialStatements, DF.resetIndexPeriod]
  · intro q hq hqi c0 hc0
    have hxper : renameCol bal.cols "_income" c0 ≠ "period" := by
      intro hx
      exact hper (hx ▸ List.mem_map_of_mem _ hc0)
    have hxmem : renameCol bal.cols "_income" c0
        ∈ inc.cols.map (renameCol bal.cols "_income") :=
      List.mem_map_of_mem _ hc0
    simp only [joinFinancialStatements, DF.resetIndexPeriod, DF.join]
    rw [if_neg hxper]
    cases hfind : (inc.cols.map (renameCol bal.cols "_income")
        ++ bal.cols.map (renameCol inc.cols "_balance")).find?
        (fun c1 => renameCol cfl.cols "" c1 == renameCol bal.cols "_income" c0) with
    | none =>
      exfalso
      have hnone := List.find?_eq_none.mp hfind _ (List.mem_append_left _ hxmem)
      simp [renameCol_empty] at hnone
    | some y =>
      have hy : y = renameCol bal.cols "_income" c0 := by
        have h1 := List.find?_some hfind
        simpa [renameCol_empty] using h1
      subst hy
      dsimp only
      by_cases hqj : q ∈ inc.idx ++ List.filter (fun p => !(inc.idx.contains p)) bal.idx
      · rw [if_pos hqj]
        cases hfind2 : inc.cols.find?
            (fun c1 => renameCol bal.cols "_income" c1
              == renameCol bal.cols "_income" c0) with
        | none =>
          exfalso
          have hnone := List.find?_eq_none.mp hfind2 c0 hc0
          simp at hnone
        | some z =>
          dsimp only
          rw [if_neg hqi]
      · rw [if_neg hqj]

/-- C8 witness: with periods Q1 and Q2 in the primary statement, Q1 and Q3
in the balance sheet, and Q2 in the cash flow, the merge yields exactly the
3 rows Q1, Q2, Q3, with the period column populated, values passed through
and nulls for the sources lacking each period. -/
theorem join_financial_statements_spec_witness :
    (joinFinancialStatements dfIncomeEx dfBalanceEx dfCashEx).idx
      = ["Q1", "Q2", "Q3"]
    ∧ (joinFinancialStatements dfIncomeEx dfBalanceEx dfCashEx).idx.length = 3
    ∧ "Q3" ∈ (joinFinancialStatements dfIncomeEx dfBalanceEx dfCashEx).idx
    ∧ (joinFinancialStatements dfIncomeEx dfBalanceEx dfCashEx).idx.Nodup
    ∧ (joinFinancialStatements dfIncomeEx dfBalanceEx dfCashEx).cols
      = ["period", "Revenue", "Assets", "FreeCashFlow"]
    ∧ (joinFinancialStatements dfIncomeEx dfBalanceEx dfCashEx).cell "Q1" "period"
      = some (Val.str "Q1")
    ∧ (joinFinancialStatements dfIncomeEx dfBalanceEx dfCashEx).cell "Q3" "Revenue"
      = none
    ∧ (joinFinancialStatements dfIncomeEx dfBalanceEx dfCashEx).cell "Q2" "Assets"
      = none
    ∧ (joinFinancialStatements dfIncomeEx dfBalanceEx dfCashEx).cell "Q1" "FreeCashFlow"
      = none
    ∧ (joinFinancialStatements dfIncomeEx dfBalanceEx dfCashEx).cell "Q1" "Revenue"
      = some (Val.num 10)
    ∧ (joinFinancialStatements dfIncomeEx dfBalanceEx dfCashEx).cell "Q2" "FreeCashFlow"
      = some (Val.num 7) := by
  have h := join_financial_statements_spec dfIncomeEx dfBalanceEx dfCashEx
    (by decide) (by decide) (by decide) (by decide)
  have hq3 : "Q3" ∈ (joinFinancialStatements dfIncomeEx dfBalanceEx dfCashEx).idx :=
    (h.1 "Q3").mpr (Or.inr (Or.inl (by decide)))
  have hrev : (joinFinancialStatements dfIncomeEx dfBalanceEx dfCashEx).cell "Q3"
      (renameCol dfBalanceEx.cols "_income" "Revenue") = none :=
    h.2.2.2.2 "Q3" hq3 (by decide) "Revenue" (by decide)
  refine ⟨by decide, by decide, hq3, h.2.1, ?_, h.2.2.2.1 "Q1", ?_, by decide,
    by decide, by decide, by decide⟩
  · rw [h.2.2.1]
    decide
  · have hren : renameCol dfBalanceEx.cols "_income" "Revenue" = "Revenue" := by decide
    rw [hren] at hrev
    exact hrev

/-- C2 witness: the three particulars instantiated through the
characterization theorem. -/
theorem compute_discount_peg_characterization_witness :
    compute_discount (some 90) (some 100) = some (1 / 10)
    ∧ compute_discount (some 90) (some 0) = none
    ∧ compute_peg (some 20) (some 0) = none := by
  have h := compute_discount_peg_characterization (some 90) (some 100) (some 20) (some 0)
  exact ⟨h.2.2.1, h.2.2.2.1, h.2.2.2.2⟩

/-- C3 witness: the lone-discount particular and nonnegativity at that
input, instantiated through the score theorem. -/
theorem compute_score_spec_witness :
    compute_score (some (1 / 2)) none none none = 20
    ∧ 0 ≤ compute_score (some (1 / 2)) none none none := by
  have h := compute_score_spec (some (1 / 2)) none none none
  exact ⟨h.2.2.2.1, h.2.1⟩

/-- C9 witness: a one-row table with a missing-value marker, instantiated
through the normalizer theorem. -/
theorem df_to_json_safe_spec_witness :
    (df_to_json_safe [[("X", Val.na)]]).length = 1
    ∧ df_to_json_safe [[("X", Val.na)]] = [[("X", JVal.null)]] := by
  have h := df_to_json_safe_spec [[("X", Val.na)]] 0 0
  exact ⟨h.1, rfl⟩

/-- C10 witness: the zero-denominator particulars instantiated through the
totality theorem. -/
theorem validators_never_raise_witness :
    compute_discountE (some 90) (some 0) = Except.ok none
    ∧ compute_scoreE none (some 0) (some 0) none = Except.ok 0 := by
  have h := validators_never_raise (some 90) (some 0) none none none (some 0) (some 0) none
  exact ⟨h.2.2.2.1, h.2.2.2.2.2⟩

end StockTool
